import Mathlib

/-!
Verification development for NLINKFS (src/src/nlinkfs.c), a FUSE layer that
emulates symbolic links on a backing filesystem via `.LNK` marker files.

Shallow embedding conventions:
* C byte strings are `List Char` (one `Char` per byte; all data here is ASCII).
* The backing store is an association list from backing paths to regular files
  (`BackFile`), since every file the layer touches is a regular file.
* The global in-memory link list `nlk_getdata->links_list` (a GList of
  `nlk_slink`, guarded by `mutex_llist`) is a `List NlkSlink`; the semaphore
  only serializes list mutation and has no sequential effect, so it is not
  modelled.
* `read`/`open` failures of the backing store are injected through
  `ReadOutcome` where an operation inspects file contents (`nlinkfs_readdir`);
  elsewhere absence of the file models the only failure the code checks.
-/

/-- On-disk regular file of the backing store. -/
structure BackFile where
  content : List Char
  mode : Nat
  uid : Nat
  gid : Nat
  mtime : Nat
deriving DecidableEq, Repr

/-- Result of `lstat` on the backing store. -/
structure FileStat where
  st_mode : Nat
  st_size : Nat
  st_uid : Nat
  st_gid : Nat
  st_mtime : Nat
deriving DecidableEq, Repr

/-- The backing store: backing path ↦ regular file. -/
abbrev Store := List (List Char × BackFile)

/-- Element of the in-memory links list (C struct `_nlinkfs_slink`):
`lfilename` is the virtual path of the link, `path` the link target. -/
structure NlkSlink where
  lfilename : List Char
  path : List Char
deriving DecidableEq, Repr

/-- The global links list `nlk_getdata->links_list`. -/
abbrev Registry := List NlkSlink

/-- Lookup a backing path in the store. -/
def lookupStore : Store → List Char → Option BackFile
  | [], _ => none
  | (k, f) :: t, p => if k = p then some f else lookupStore t p

/-- Remove a backing path from the store (`unlink`). -/
def storeErase : Store → List Char → Store
  | [], _ => []
  | (k, f) :: t, p => if k = p then storeErase t p else (k, f) :: storeErase t p

/-- Create or replace the file at a backing path. -/
def storeSet (s : Store) (p : List Char) (f : BackFile) : Store :=
  storeErase s p ++ [(p, f)]

/-- The `lstat` call: present files report their stored metadata, size is the
physical content length. -/
def lstatStore (s : Store) (p : List Char) : Option FileStat :=
  (lookupStore s p).map
    (fun f => ⟨f.mode, f.content.length, f.uid, f.gid, f.mtime⟩)

/-- Return value of C `unlink` on the store: 0 when the path exists, -1
otherwise. -/
def unlinkRet (s : Store) (p : List Char) : Int :=
  if (lookupStore s p).isSome then 0 else -1

/-- C `rename(old,new)`: moves the file, overwriting `new`; -1 when `old` is
absent. -/
def renameStore (s : Store) (old new : List Char) : Store × Int :=
  match lookupStore s old with
  | some f => (storeSet (storeErase s old) new f, 0)
  | none => (s, -1)

/-- C `chown(path,uid,gid)` on the store. -/
def chownStore (s : Store) (p : List Char) (uid gid : Nat) : Store × Int :=
  match lookupStore s p with
  | some f => (storeSet s p { f with uid := uid, gid := gid }, 0)
  | none => (s, -1)

/-- `g_list_find_custom(llist, path, compare_link)`: first list element whose
`lfilename` is `strcmp`-equal to the probed virtual path. -/
def findLink : Registry → List Char → Option NlkSlink
  | [], _ => none
  | e :: t, p => if e.lfilename = p then some e else findLink t p

/-- `insert_link`: append the new link unless an element with the same
`lfilename` is already present. -/
def insertLink (reg : Registry) (e : NlkSlink) : Registry :=
  if (findLink reg e.lfilename).isSome then reg else reg ++ [e]

/-- `NLINKFS_MAGIC` ("NLINKFS", `NLINKFS_MAGIC_SIZE` = 7 bytes). -/
def NLINKFS_MAGIC : List Char := ['N', 'L', 'I', 'N', 'K', 'F', 'S']

/-- The `.LNK` marker-file name suffix. -/
def lnkSuffix : List Char := ['.', 'L', 'N', 'K']

/-- `get_realpath`: source-directory prefix plus the virtual path. -/
def realPath (srcdir p : List Char) : List Char := srcdir ++ p

/-- Backing location of a virtual path's marker file. -/
def markerPath (srcdir p : List Char) : List Char := srcdir ++ p ++ lnkSuffix

/-- Marker-file bytes written by `nlinkfs_symlink`: magic signature, one
newline, then the target. -/
def encodeMarker (target : List Char) : List Char :=
  NLINKFS_MAGIC ++ '\n' :: target

/-- Marker-file decoding as performed by `nlinkfs_readdir` on a fully read
file: the first 7 bytes must be the magic, byte 7 is skipped unchecked, and
the target is everything from byte 8 up to the next newline. Files shorter
than 8 bytes are not decodable (a 7-byte magic-only file makes
`slen = fsize - 8 = -1`, so `g_malloc(0)` returns NULL and the entry is
abandoned). -/
def decodeMarker (c : List Char) : Option (List Char) :=
  if 8 ≤ c.length ∧ c.take 7 = NLINKFS_MAGIC then
    some ((c.drop 8).takeWhile (fun ch => ch != '\n'))
  else
    none

/-- `de->d_name` ends in ".LNK" and is at least 4 bytes long. -/
def hasLnkSuffix (n : List Char) : Prop :=
  4 ≤ n.length ∧ n.drop (n.length - 4) = lnkSuffix

instance (n : List Char) : Decidable (hasLnkSuffix n) := by
  unfold hasLnkSuffix; infer_instance

/-- `de->d_name[len] = 0`: the candidate name with ".LNK" stripped. -/
def stripLnk (n : List Char) : List Char := n.take (n.length - 4)

/-- Outcome of the backing-store reads `nlinkfs_readdir` performs on one
`.LNK` candidate: the open can fail, the 7-byte magic read can fail short,
or the target read can fail short; `ok` is a fault-free read of content `c`. -/
inductive ReadOutcome where
  | openFail : ReadOutcome
  | magicFault : List Char → ReadOutcome
  | targetFault : List Char → ReadOutcome
  | ok : List Char → ReadOutcome
deriving DecidableEq, Repr

/-- One entry of the backing directory as `nlinkfs_readdir` sees it. -/
structure DirEntry where
  name : List Char
  read : ReadOutcome
deriving DecidableEq, Repr

/-- How `nlinkfs_readdir` disposes of one directory entry. -/
inductive LnkOutcome where
  | literal : LnkOutcome
  | stripped : List Char → LnkOutcome
  | dropped : LnkOutcome
deriving DecidableEq, Repr

/-- Per-entry classification of `nlinkfs_readdir`'s do-while body.
`literal`: `islnk = 0`, the entry is passed to `filler` under its own name.
`stripped t`: a link with target `t`, the suffix-stripped name is emitted.
`dropped`: a `continue` is hit after the magic matched (NULL `g_malloc` when
the file is exactly 7 bytes, or a short read of the target bytes), so the
entry is not emitted at all. A short target read needs `slen > 0`, i.e.
content longer than 8 bytes, since `read(fd, lpath, 0)` returns 0, which is
not `< 0`. -/
def classify (e : DirEntry) : LnkOutcome :=
  if hasLnkSuffix e.name then
    match e.read with
    | .openFail => .literal
    | .magicFault _ => .literal
    | .targetFault c =>
      if c.length < 7 then .literal
      else if c.take 7 ≠ NLINKFS_MAGIC then .literal
      else if c.length = 7 then .dropped
      else if 8 < c.length then .dropped
      else .stripped ((c.drop 8).takeWhile (fun ch => ch != '\n'))
    | .ok c =>
      if c.length < 7 then .literal
      else if c.take 7 ≠ NLINKFS_MAGIC then .literal
      else if c.length = 7 then .dropped
      else .stripped ((c.drop 8).takeWhile (fun ch => ch != '\n'))
  else .literal

/-- Names `filler` receives for one directory entry. -/
def emitOf (e : DirEntry) : List (List Char) :=
  match classify e with
  | .literal => [e.name]
  | .stripped _ => [stripLnk e.name]
  | .dropped => []

/-- The ordered sequence of names `nlinkfs_readdir` emits for a directory. -/
def readdirEmit (entries : List DirEntry) : List (List Char) :=
  (entries.map emitOf).flatten

/-- `create_link_st` filename construction: directory path, a "/" unless the
path is empty or already ends in one, then the stripped entry name. -/
def joinPath (dir fname : List Char) : List Char :=
  (if 0 < dir.length ∧ dir.getLast? ≠ some '/' then dir ++ ['/'] else dir)
    ++ fname

/-- Registry effect of one `nlinkfs_readdir` entry: valid markers are
registered via `create_link_st` + `insert_link`; everything else leaves the
list alone. -/
def registerOf (dir : List Char) (reg : Registry) (e : DirEntry) : Registry :=
  match classify e with
  | .stripped t => insertLink reg ⟨joinPath dir (stripLnk e.name), t⟩
  | _ => reg

/-- Registry state after `nlinkfs_readdir` walks a whole directory. -/
def readdirRegister (dir : List Char) (reg : Registry)
    (entries : List DirEntry) : Registry :=
  entries.foldl (registerOf dir) reg

/-- File-type masks of `sys/stat.h`. -/
def S_IFMT : Nat := 0o170000

/-- Regular-file type bits. -/
def S_IFREG : Nat := 0o100000

/-- Symbolic-link type bits. -/
def S_IFLNK : Nat := 0o120000

/-- `nlinkfs_getattr`: a path found in the links list is answered from an
`lstat` of its marker file with `st_mode |= S_IFLNK` and `st_size` replaced
by the stored target's length; otherwise plain `lstat` of the backing path.
A failed `lstat` yields `-errno` (`ENOENT` for an absent path). -/
def nlinkfs_getattr (reg : Registry) (store : Store) (srcdir p : List Char) :
    Except Int FileStat :=
  match findLink reg p with
  | some slink =>
    match lstatStore store (markerPath srcdir p) with
    | some st =>
      .ok { st with st_mode := st.st_mode ||| S_IFLNK,
                    st_size := slink.path.length }
    | none => .error (-2)
  | none =>
    match lstatStore store (realPath srcdir p) with
    | some st => .ok st
    | none => .error (-2)

/-- `nlinkfs_readlink`, modelled as the list of (index, byte) stores into the
caller's buffer plus the returned status. A registered path is answered from
the links list alone (the function performs no backing-store access); an
unregistered path returns `-EINVAL` (-22). When the target is longer than
`size` the code copies `size` bytes and then stores a NUL at index `size`. -/
def nlinkfs_readlink (reg : Registry) (p : List Char) (size : Nat) :
    List (Nat × Char) × Int :=
  match findLink reg p with
  | some slink =>
    let llen := slink.path.length
    if llen > size then
      ((slink.path.take size).enum ++ [(size, Char.ofNat 0)], 0)
    else
      (slink.path.enum ++ [(llen, Char.ofNat 0)], 0)
  | none => ([], -22)

/-- `nlinkfs_unlink`: for a registered path the `.LNK` marker is unlinked; the
attempted list removal passes the GList *node* to `g_list_remove`, which
compares it against each element's *data* pointer, so no element matches and
the global list is unchanged (the return value is also only stored in a
local). Unregistered paths unlink the plain backing path. -/
def nlinkfs_unlink (reg : Registry) (store : Store) (srcdir p : List Char) :
    Registry × Store × Int :=
  match findLink reg p with
  | some _ =>
    (reg, storeErase store (markerPath srcdir p),
      unlinkRet store (markerPath srcdir p))
  | none =>
    (reg, storeErase store (realPath srcdir p),
      unlinkRet store (realPath srcdir p))

/-- `nlinkfs_symlink target link`: opens `realpath(link) + ".LNK"` with
`O_WRONLY | O_CREAT` — no `O_EXCL` and no `O_TRUNC` — so an existing file at
the marker path is kept and rewritten from offset 0, leaving any longer tail
in place; a fresh file is created with mode 0777. The magic, a newline and
the target are then written and the link is registered via `insert_link`. -/
def nlinkfs_symlink (reg : Registry) (store : Store)
    (srcdir target link : List Char) : Registry × Store × Int :=
  let mp := markerPath srcdir link
  let written := encodeMarker target
  let newFile : BackFile :=
    match lookupStore store mp with
    | some f => { f with content := written ++ f.content.drop written.length }
    | none => ⟨written, 0o777, 0, 0, 0⟩
  (insertLink reg ⟨link, target⟩, storeSet store mp newFile, 0)

/-- `nlinkfs_chown`: registered paths chown the marker file, others the plain
backing path. -/
def nlinkfs_chown (reg : Registry) (store : Store) (srcdir p : List Char)
    (uid gid : Nat) : Store × Int :=
  match findLink reg p with
  | some _ => chownStore store (markerPath srcdir p) uid gid
  | none => chownStore store (realPath srcdir p) uid gid

/-- `nlinkfs_rename`: registered paths rename marker to marker, others rename
the plain backing paths; the links list is never touched. -/
def nlinkfs_rename (reg : Registry) (store : Store)
    (srcdir p newp : List Char) : Registry × Store × Int :=
  match findLink reg p with
  | some _ =>
    let r := renameStore store (markerPath srcdir p) (markerPath srcdir newp)
    (reg, r.1, r.2)
  | none =>
    let r := renameStore store (realPath srcdir p) (realPath srcdir newp)
    (reg, r.1, r.2)

/-! ### Helper lemmas about the store, the registry and the codec -/

theorem lookupStore_erase (s : Store) (p q : List Char) :
    lookupStore (storeErase s p) q = if q = p then none else lookupStore s q := by
  induction s with
  | nil => simp [storeErase, lookupStore]
  | cons kv t ih =>
    obtain ⟨k, f⟩ := kv
    simp only [storeErase]
    by_cases hk : k = p
    · subst hk
      rw [if_pos rfl, ih]
      by_cases hq : q = k
      · simp [hq]
      · have hkq : ¬ k = q := fun h => hq h.symm
        simp [lookupStore, hq, hkq]
    · rw [if_neg hk]
      by_cases hq : k = q
      · subst hq
        have hkp : ¬ k = p := hk
        simp [lookupStore, hkp, fun h : k = p => hk h]
      · simp [lookupStore, hq, ih]

theorem lookupStore_append (s₁ s₂ : Store) (q : List Char) :
    lookupStore (s₁ ++ s₂) q =
      ((lookupStore s₁ q).or (lookupStore s₂ q)) := by
  induction s₁ with
  | nil => simp [lookupStore]
  | cons kv t ih =>
    obtain ⟨k, f⟩ := kv
    by_cases hq : k = q <;> simp [lookupStore, hq, ih]

theorem lookupStore_set (s : Store) (p : List Char) (f : BackFile)
    (q : List Char) :
    lookupStore (storeSet s p f) q = if q = p then some f else lookupStore s q := by
  unfold storeSet
  rw [lookupStore_append, lookupStore_erase]
  by_cases hq : q = p
  · simp [lookupStore, hq]
  · have hpq : ¬ p = q := fun h => hq h.symm
    simp [lookupStore, hq, hpq]

theorem takeWhile_ne_newline (t : List Char) (h : '\n' ∉ t) :
    t.takeWhile (fun ch => ch != '\n') = t := by
  rw [List.takeWhile_eq_self_iff]
  intro x hx
  simp only [bne_iff_ne, ne_eq]
  intro hxe
  exact h (hxe ▸ hx)

theorem encodeMarker_length (t : List Char) :
    (encodeMarker t).length = 8 + t.length := by
  simp [encodeMarker, NLINKFS_MAGIC]
  omega

theorem encodeMarker_take (t : List Char) :
    (encodeMarker t).take 7 = NLINKFS_MAGIC := rfl

theorem encodeMarker_drop (t : List Char) :
    (encodeMarker t).drop 8 = t := rfl

theorem decodeMarker_encode (t : List Char) (h : '\n' ∉ t) :
    decodeMarker (encodeMarker t) = some t := by
  unfold decodeMarker
  rw [if_pos ⟨by rw [encodeMarker_length]; omega, encodeMarker_take t⟩,
    encodeMarker_drop, takeWhile_ne_newline t h]

theorem decodeMarker_some (c t : List Char) (h : decodeMarker c = some t) :
    8 ≤ c.length ∧ c.take 7 = NLINKFS_MAGIC ∧
      (c.drop 8).takeWhile (fun ch => ch != '\n') = t := by
  unfold decodeMarker at h
  by_cases hc : 8 ≤ c.length ∧ c.take 7 = NLINKFS_MAGIC
  · rw [if_pos hc] at h
    exact ⟨hc.1, hc.2, by injection h⟩
  · rw [if_neg hc] at h
    cases h

theorem hasLnkSuffix_append (b : List Char) : hasLnkSuffix (b ++ lnkSuffix) := by
  constructor
  · simp [lnkSuffix]
  · have hl : (b ++ lnkSuffix).length - 4 = b.length := by simp [lnkSuffix]
    rw [hl]
    exact List.drop_left b lnkSuffix

theorem stripLnk_append (b : List Char) : stripLnk (b ++ lnkSuffix) = b := by
  unfold stripLnk
  have hl : (b ++ lnkSuffix).length - 4 = b.length := by simp [lnkSuffix]
  rw [hl]
  exact List.take_left b lnkSuffix

theorem eq_stripLnk_append (n : List Char) (h : hasLnkSuffix n) :
    n = stripLnk n ++ lnkSuffix := by
  conv_lhs => rw [← List.take_append_drop (n.length - 4) n]
  rw [h.2]
  rfl

theorem ne_append_lnkSuffix (x : List Char) : x ≠ x ++ lnkSuffix := by
  intro h
  have := congrArg List.length h
  simp [lnkSuffix] at this

theorem classify_ok_of_decode (name c t : List Char) (hs : hasLnkSuffix name)
    (hd : decodeMarker c = some t) :
    classify ⟨name, .ok c⟩ = .stripped t := by
  obtain ⟨hlen, hmagic, htake⟩ := decodeMarker_some c t hd
  simp only [classify, if_pos hs]
  rw [if_neg (by omega : ¬ c.length < 7),
    if_neg (by simp [hmagic] : ¬ c.take 7 ≠ NLINKFS_MAGIC),
    if_neg (by omega : ¬ c.length = 7), htake]

theorem nat_or_and_distrib (a b c : Nat) :
    (a ||| b) &&& c = (a &&& c) ||| (b &&& c) := by
  apply Nat.eq_of_testBit_eq
  intro i
  simp [Nat.testBit_and, Nat.testBit_or, Bool.and_or_distrib_right]

theorem mode_or_lnk_ifmt (m : Nat) (h : m &&& S_IFMT = S_IFREG) :
    (m ||| S_IFLNK) &&& S_IFMT = S_IFLNK := by
  rw [nat_or_and_distrib, h]
  decide

theorem mode_or_lnk_perm (m : Nat) :
    (m ||| S_IFLNK) &&& 0o7777 = m &&& 0o7777 := by
  rw [nat_or_and_distrib, (by decide : S_IFLNK &&& 0o7777 = 0), Nat.or_zero]

theorem realPath_ne_markerPath (srcdir p : List Char) :
    realPath srcdir p ≠ markerPath srcdir p := by
  intro h
  have := congrArg List.length h
  simp [realPath, markerPath, lnkSuffix] at this

theorem markerPath_inj (srcdir p q : List Char) (h : p ≠ q) :
    markerPath srcdir p ≠ markerPath srcdir q := by
  intro he
  unfold markerPath at he
  rw [List.append_assoc, List.append_assoc] at he
  exact h (List.append_cancel_right (List.append_cancel_left he))

theorem findLink_append (r r' : Registry) (q : List Char) :
    findLink (r ++ r') q = ((findLink r q).or (findLink r' q)) := by
  induction r with
  | nil => simp [findLink]
  | cons e t ih =>
    by_cases hq : e.lfilename = q <;> simp [findLink, hq, ih]

/-- C5: for every target string `T` containing no newline byte (the empty
string included), decoding the marker-file bytes produced by encoding `T`
(signature, one newline byte, then `T`) yields exactly `T`; in particular a
directory entry holding exactly those bytes is classified as a link with
target `T`. -/
theorem decode_encode_roundtrip (t n : List Char) (h : '\n' ∉ t) :
    decodeMarker (encodeMarker t) = some t ∧
    classify ⟨n ++ lnkSuffix, .ok (encodeMarker t)⟩ = .stripped t :=
  ⟨decodeMarker_encode t h,
    classify_ok_of_decode _ _ _ (hasLnkSuffix_append n) (decodeMarker_encode t h)⟩

/-- Witness for `decode_encode_roundtrip`: the target "/x" and the name
"mylink.LNK". -/
theorem decode_encode_roundtrip_witness :
    decodeMarker (encodeMarker ['/', 'x']) = some ['/', 'x'] ∧
    classify ⟨['m', 'y'] ++ lnkSuffix, .ok (encodeMarker ['/', 'x'])⟩ =
      .stripped ['/', 'x'] :=
  decode_encode_roundtrip ['/', 'x'] ['m', 'y'] (by decide)

/-- C9: on a registered emulated link whose target is strictly longer than the
caller-supplied buffer size, `nlinkfs_readlink` stores the first `size` target
bytes at buffer indices 0..size-1, stores a NUL terminator at buffer index
`size` — one byte past the end of a `size`-byte buffer — and returns 0. -/
theorem readlink_writes_past_buffer (reg : Registry) (p : List Char)
    (e : NlkSlink) (size : Nat) (hreg : findLink reg p = some e)
    (hlen : size < e.path.length) :
    nlinkfs_readlink reg p size =
      ((e.path.take size).enum ++ [(size, Char.ofNat 0)], 0) ∧
    (e.path.take size).length = size := by
  constructor
  · simp only [nlinkfs_readlink, hreg]
    rw [if_pos (by omega)]
  · rw [List.length_take]
    omega

/-- Witness for `readlink_writes_past_buffer`: link "/a" with the 4-byte
target "/tgt" read into a 2-byte buffer. -/
theorem readlink_writes_past_buffer_witness :
    nlinkfs_readlink [⟨['/', 'a'], ['/', 't', 'g', 't']⟩] ['/', 'a'] 2 =
      (((['/', 't', 'g', 't'] : List Char).take 2).enum ++
        [(2, Char.ofNat 0)], 0) ∧
    ((['/', 't', 'g', 't'] : List Char).take 2).length = 2 :=
  readlink_writes_past_buffer [⟨['/', 'a'], ['/', 't', 'g', 't']⟩] ['/', 'a']
    ⟨['/', 'a'], ['/', 't', 'g', 't']⟩ 2 rfl (by decide)

/-- C8: deleting a registered emulated link removes exactly the marker file
`marker_path(p)` from the backing store; the plain backing path and every
other backing-store file are unchanged. -/
theorem unlink_removes_only_marker (reg : Registry) (store : Store)
    (srcdir p q : List Char) (hreg : (findLink reg p).isSome = true)
    (hq : q ≠ markerPath srcdir p) :
    lookupStore (nlinkfs_unlink reg store srcdir p).2.1
      (markerPath srcdir p) = none ∧
    lookupStore (nlinkfs_unlink reg store srcdir p).2.1 q =
      lookupStore store q ∧
    lookupStore (nlinkfs_unlink reg store srcdir p).2.1 (realPath srcdir p) =
      lookupStore store (realPath srcdir p) := by
  obtain ⟨e, he⟩ := Option.isSome_iff_exists.mp hreg
  simp only [nlinkfs_unlink, he]
  rw [lookupStore_erase, lookupStore_erase, lookupStore_erase]
  refine ⟨by simp, by simp [hq], by simp [realPath_ne_markerPath srcdir p]⟩

/-- Witness for `unlink_removes_only_marker`: registered link "/a" over a
store holding its marker, the file it points to and an unrelated file. -/
theorem unlink_removes_only_marker_witness :
    lookupStore (nlinkfs_unlink [⟨['/', 'a'], ['/', 't']⟩]
      [(markerPath ['s'] ['/', 'a'], ⟨encodeMarker ['/', 't'], 0o100644, 0, 0, 0⟩),
       (['s', '/', 't'], ⟨['h', 'i'], 0o100644, 0, 0, 0⟩)]
      ['s'] ['/', 'a']).2.1 (markerPath ['s'] ['/', 'a']) = none ∧
    lookupStore (nlinkfs_unlink [⟨['/', 'a'], ['/', 't']⟩]
      [(markerPath ['s'] ['/', 'a'], ⟨encodeMarker ['/', 't'], 0o100644, 0, 0, 0⟩),
       (['s', '/', 't'], ⟨['h', 'i'], 0o100644, 0, 0, 0⟩)]
      ['s'] ['/', 'a']).2.1 (['s', '/', 't']) =
      lookupStore
        [(markerPath ['s'] ['/', 'a'], ⟨encodeMarker ['/', 't'], 0o100644, 0, 0, 0⟩),
         (['s', '/', 't'], ⟨['h', 'i'], 0o100644, 0, 0, 0⟩)] (['s', '/', 't']) ∧
    lookupStore (nlinkfs_unlink [⟨['/', 'a'], ['/', 't']⟩]
      [(markerPath ['s'] ['/', 'a'], ⟨encodeMarker ['/', 't'], 0o100644, 0, 0, 0⟩),
       (['s', '/', 't'], ⟨['h', 'i'], 0o100644, 0, 0, 0⟩)]
      ['s'] ['/', 'a']).2.1 (realPath ['s'] ['/', 'a']) =
      lookupStore
        [(markerPath ['s'] ['/', 'a'], ⟨encodeMarker ['/', 't'], 0o100644, 0, 0, 0⟩),
         (['s', '/', 't'], ⟨['h', 'i'], 0o100644, 0, 0, 0⟩)]
        (realPath ['s'] ['/', 'a']) :=
  unlink_removes_only_marker [⟨['/', 'a'], ['/', 't']⟩]
    [(markerPath ['s'] ['/', 'a'], ⟨encodeMarker ['/', 't'], 0o100644, 0, 0, 0⟩),
     (['s', '/', 't'], ⟨['h', 'i'], 0o100644, 0, 0, 0⟩)]
    ['s'] ['/', 'a'] (['s', '/', 't']) (by decide) (by decide)

/-- C6: on a path the system treats as an emulated symlink (registered, with
its marker file present as a regular file whose content decodes to the
registered target), get-attributes reports file type = symbolic link, reported
size = the byte length of the decoded target (strictly smaller than the
marker file's physical size), and the remaining metadata — permission bits,
owner, group, mtime — comes from the marker file's real stat data. -/
theorem getattr_fakes_symlink_attributes (reg : Registry) (store : Store)
    (srcdir p : List Char) (e : NlkSlink) (f : BackFile)
    (hreg : findLink reg p = some e)
    (hmark : lookupStore store (markerPath srcdir p) = some f)
    (hregular : f.mode &&& S_IFMT = S_IFREG)
    (hdecode : decodeMarker f.content = some e.path) :
    ∃ st, nlinkfs_getattr reg store srcdir p = .ok st ∧
      st.st_mode &&& S_IFMT = S_IFLNK ∧
      st.st_size = e.path.length ∧
      st.st_size < f.content.length ∧
      st.st_mode &&& 0o7777 = f.mode &&& 0o7777 ∧
      st.st_uid = f.uid ∧ st.st_gid = f.gid ∧ st.st_mtime = f.mtime := by
  refine ⟨⟨f.mode ||| S_IFLNK, e.path.length, f.uid, f.gid, f.mtime⟩,
    ?_, mode_or_lnk_ifmt f.mode hregular, rfl, ?_, mode_or_lnk_perm f.mode,
    rfl, rfl, rfl⟩
  · simp [nlinkfs_getattr, hreg, lstatStore, hmark]
  · obtain ⟨hlen, -, htake⟩ := decodeMarker_some _ _ hdecode
    have h1 : e.path.length ≤ (f.content.drop 8).length := by
      rw [← htake]
      exact (List.takeWhile_prefix (fun ch => ch != '\n')).length_le
    rw [List.length_drop] at h1
    show e.path.length < f.content.length
    omega

/-- Witness for `getattr_fakes_symlink_attributes`: link "/a" with target
"/t", marker file mode 0100644 and physical size 10. -/
theorem getattr_fakes_symlink_attributes_witness :
    ∃ st, nlinkfs_getattr [⟨['/', 'a'], ['/', 't']⟩]
        [(markerPath ['s'] ['/', 'a'],
          ⟨encodeMarker ['/', 't'], 0o100644, 3, 4, 5⟩)] ['s'] ['/', 'a'] =
        .ok st ∧
      st.st_mode &&& S_IFMT = S_IFLNK ∧
      st.st_size = (['/', 't'] : List Char).length ∧
      st.st_size < (encodeMarker ['/', 't']).length ∧
      st.st_mode &&& 0o7777 = 0o100644 &&& 0o7777 ∧
      st.st_uid = 3 ∧ st.st_gid = 4 ∧ st.st_mtime = 5 :=
  getattr_fakes_symlink_attributes [⟨['/', 'a'], ['/', 't']⟩]
    [(markerPath ['s'] ['/', 'a'], ⟨encodeMarker ['/', 't'], 0o100644, 3, 4, 5⟩)]
    ['s'] ['/', 'a'] ⟨['/', 'a'], ['/', 't']⟩
    ⟨encodeMarker ['/', 't'], 0o100644, 3, 4, 5⟩
    rfl (by decide) (by decide) (by decide)

/-- C1 counterexample: a backing store with a valid marker file at
`marker_path("/f")` (its content decodes to the target "/t") and an empty
links list. `nlinkfs_readlink` answers "not a link" (`-EINVAL`) and
`nlinkfs_getattr` reports the plain backing file unmodified (regular-file
type bits, physical size), so link status is not decided by the current
backing-store state: the operations branch on the in-memory list instead. -/
theorem readlink_ignores_marker_file :
    lookupStore
      [(realPath ['s'] ['/', 'f'], ⟨['h', 'i'], 0o100644, 0, 0, 0⟩),
       (markerPath ['s'] ['/', 'f'], ⟨encodeMarker ['/', 't'], 0o100644, 0, 0, 0⟩)]
      (markerPath ['s'] ['/', 'f']) =
      some ⟨encodeMarker ['/', 't'], 0o100644, 0, 0, 0⟩ ∧
    decodeMarker (encodeMarker ['/', 't']) = some ['/', 't'] ∧
    nlinkfs_readlink [] ['/', 'f'] 100 = ([], -22) ∧
    nlinkfs_getattr []
      [(realPath ['s'] ['/', 'f'], ⟨['h', 'i'], 0o100644, 0, 0, 0⟩),
       (markerPath ['s'] ['/', 'f'], ⟨encodeMarker ['/', 't'], 0o100644, 0, 0, 0⟩)]
      ['s'] ['/', 'f'] = .ok ⟨0o100644, 2, 0, 0, 0⟩ ∧
    0o100644 &&& S_IFMT ≠ S_IFLNK :=
  ⟨rfl, rfl, rfl, rfl, by decide⟩

/-- C1 amended: every link-aware operation (get-attributes, read-link-target,
delete, rename, change-owner) treats `p` as an emulated symlink iff `p` is
present in the in-memory links list; when it is, the operation works on
`marker_path(p)`, and when it is not, on the plain backing path — in both
cases independently of whether a signed marker file currently exists on the
backing store. -/
theorem link_ops_branch_on_registry (reg : Registry) (store : Store)
    (srcdir p newp : List Char) (uid gid size : Nat) :
    ((findLink reg p).isSome = true →
      (nlinkfs_readlink reg p size).2 = 0 ∧
      nlinkfs_unlink reg store srcdir p =
        (reg, storeErase store (markerPath srcdir p),
          unlinkRet store (markerPath srcdir p)) ∧
      nlinkfs_chown reg store srcdir p uid gid =
        chownStore store (markerPath srcdir p) uid gid ∧
      nlinkfs_rename reg store srcdir p newp =
        (reg,
          (renameStore store (markerPath srcdir p) (markerPath srcdir newp)).1,
          (renameStore store (markerPath srcdir p) (markerPath srcdir newp)).2) ∧
      (∃ e, findLink reg p = some e ∧
        nlinkfs_getattr reg store srcdir p =
          (match lstatStore store (markerPath srcdir p) with
            | some st =>
              .ok { st with st_mode := st.st_mode ||| S_IFLNK,
                            st_size := e.path.length }
            | none => .error (-2)))) ∧
    ((findLink reg p).isSome = false →
      nlinkfs_readlink reg p size = ([], -22) ∧
      nlinkfs_unlink reg store srcdir p =
        (reg, storeErase store (realPath srcdir p),
          unlinkRet store (realPath srcdir p)) ∧
      nlinkfs_chown reg store srcdir p uid gid =
        chownStore store (realPath srcdir p) uid gid ∧
      nlinkfs_rename reg store srcdir p newp =
        (reg, (renameStore store (realPath srcdir p) (realPath srcdir newp)).1,
          (renameStore store (realPath srcdir p) (realPath srcdir newp)).2) ∧
      nlinkfs_getattr reg store srcdir p =
        (match lstatStore store (realPath srcdir p) with
          | some st => .ok st
          | none => .error (-2))) := by
  constructor
  · intro h
    obtain ⟨e, he⟩ := Option.isSome_iff_exists.mp h
    refine ⟨?_, ?_, ?_, ?_, e, he, ?_⟩
    · simp only [nlinkfs_readlink, he]
      by_cases hc : e.path.length > size <;> simp [hc]
    · simp [nlinkfs_unlink, he]
    · simp [nlinkfs_chown, he]
    · simp [nlinkfs_rename, he]
    · simp [nlinkfs_getattr, he]
  · intro h
    have he : findLink reg p = none := by
      cases hx : findLink reg p
      · rfl
      · rw [hx] at h; simp at h
    exact ⟨by simp [nlinkfs_readlink, he], by simp [nlinkfs_unlink, he],
      by simp [nlinkfs_chown, he], by simp [nlinkfs_rename, he],
      by simp [nlinkfs_getattr, he]⟩

/-- Witness for `link_ops_branch_on_registry`: the registered link "/a". -/
theorem link_ops_branch_on_registry_witness :
    (nlinkfs_readlink [⟨['/', 'a'], ['/', 't']⟩] ['/', 'a'] 9).2 = 0 ∧
    nlinkfs_unlink [⟨['/', 'a'], ['/', 't']⟩] [] ['s'] ['/', 'a'] =
      ([⟨['/', 'a'], ['/', 't']⟩], storeErase [] (markerPath ['s'] ['/', 'a']),
        unlinkRet [] (markerPath ['s'] ['/', 'a'])) ∧
    nlinkfs_chown [⟨['/', 'a'], ['/', 't']⟩] [] ['s'] ['/', 'a'] 1 2 =
      chownStore [] (markerPath ['s'] ['/', 'a']) 1 2 ∧
    nlinkfs_rename [⟨['/', 'a'], ['/', 't']⟩] [] ['s'] ['/', 'a'] ['/', 'b'] =
      ([⟨['/', 'a'], ['/', 't']⟩],
        (renameStore [] (markerPath ['s'] ['/', 'a'])
          (markerPath ['s'] ['/', 'b'])).1,
        (renameStore [] (markerPath ['s'] ['/', 'a'])
          (markerPath ['s'] ['/', 'b'])).2) ∧
    (∃ e, findLink [⟨['/', 'a'], ['/', 't']⟩] ['/', 'a'] = some e ∧
      nlinkfs_getattr [⟨['/', 'a'], ['/', 't']⟩] [] ['s'] ['/', 'a'] =
        (match lstatStore [] (markerPath ['s'] ['/', 'a']) with
          | some st =>
            .ok { st with st_mode := st.st_mode ||| S_IFLNK,
                          st_size := e.path.length }
          | none => .error (-2))) :=
  (link_ops_branch_on_registry [⟨['/', 'a'], ['/', 't']⟩] [] ['s'] ['/', 'a']
    ['/', 'b'] 1 2 9).1 (by decide)

/-- C2 counterexample: the links list is an in-memory registry that survives
across operations and is consulted instead of the backing store. With an
empty backing store — no marker file exists anywhere — `nlinkfs_readlink`
still resolves the registered path "/a" to its target with status 0, so the
probe did not re-read the backing store. -/
theorem registry_probe_without_backing_store :
    lookupStore ([] : Store) (markerPath ['s'] ['/', 'a']) = none ∧
    nlinkfs_readlink [⟨['/', 'a'], ['/', 't', 'g', 't']⟩] ['/', 'a'] 100 =
      ([(0, '/'), (1, 't'), (2, 'g'), (3, 't'), (4, Char.ofNat 0)], 0) :=
  ⟨rfl, rfl⟩

/-- C2 amended: the system does keep a global in-memory registry of emulated
links (the semaphore-guarded `links_list`): `nlinkfs_symlink` adds the new
link to it, later link-sensitive operations consult it, and
`nlinkfs_readlink` answers entirely from it — with return status 0 for any
registered path — performing no backing-store read at all. -/
theorem registry_is_maintained_and_consulted (reg : Registry) (store : Store)
    (srcdir target link p : List Char) (e : NlkSlink) (size : Nat)
    (hreg : findLink reg p = some e)
    (hfresh : findLink reg link = none) :
    (nlinkfs_readlink reg p size).2 = 0 ∧
    findLink (nlinkfs_symlink reg store srcdir target link).1 link =
      some ⟨link, target⟩ := by
  constructor
  · simp only [nlinkfs_readlink, hreg]
    by_cases hc : e.path.length > size <;> simp [hc]
  · simp only [nlinkfs_symlink, insertLink, hfresh, Option.isSome_none,
      Bool.false_eq_true, if_false]
    rw [findLink_append, hfresh]
    simp [findLink]

/-- Witness for `registry_is_maintained_and_consulted`: registered link "/a",
fresh link "/b" with target "/t2", over an empty backing store. -/
theorem registry_is_maintained_and_consulted_witness :
    (nlinkfs_readlink [⟨['/', 'a'], ['/', 't']⟩] ['/', 'a'] 7).2 = 0 ∧
    findLink (nlinkfs_symlink [⟨['/', 'a'], ['/', 't']⟩] [] ['s']
        ['/', 't', '2'] ['/', 'b']).1 ['/', 'b'] =
      some ⟨['/', 'b'], ['/', 't', '2']⟩ :=
  registry_is_maintained_and_consulted [⟨['/', 'a'], ['/', 't']⟩] [] ['s']
    ['/', 't', '2'] ['/', 'b'] ['/', 'a'] ⟨['/', 'a'], ['/', 't']⟩ 7
    rfl (by decide)

/-- C4: `nlinkfs_symlink` opens the marker with `O_WRONLY | O_CREAT` — no
`O_EXCL` (contrast `nlinkfs_mknod`, which does pass `O_EXCL`) and no
`O_TRUNC`. Evaluated at a state where a marker for "/a" already exists with
the 15-byte content `encode("/oldtgt")`, creating the symlink "/a" with
target "/n" returns 0 instead of failing, and rewrites the existing file from
offset 0: the store now holds `encode("/n")` followed by the stale tail
"ldtgt" of the old content. -/
theorem symlink_succeeds_over_existing_marker :
    lookupStore
      [(markerPath ['s'] ['/', 'a'],
        ⟨encodeMarker ['/', 'o', 'l', 'd', 't', 'g', 't'], 0o100600, 5, 6, 7⟩)]
      (markerPath ['s'] ['/', 'a']) =
      some ⟨encodeMarker ['/', 'o', 'l', 'd', 't', 'g', 't'], 0o100600, 5, 6, 7⟩ ∧
    nlinkfs_symlink []
      [(markerPath ['s'] ['/', 'a'],
        ⟨encodeMarker ['/', 'o', 'l', 'd', 't', 'g', 't'], 0o100600, 5, 6, 7⟩)]
      ['s'] ['/', 'n'] ['/', 'a'] =
      ([⟨['/', 'a'], ['/', 'n']⟩],
        [(markerPath ['s'] ['/', 'a'],
          ⟨encodeMarker ['/', 'n'] ++ ['l', 'd', 't', 'g', 't'],
            0o100600, 5, 6, 7⟩)], 0) :=
  ⟨rfl, rfl⟩

/-- C3 counterexample: one directory entry "a.LNK" whose content is the valid
marker `encode("/x")` but whose target-bytes read fails short (an I/O error
after a successful signature read), next to a plain entry "b". The listing
still succeeds and emits "b", but the faulty entry is dropped entirely — it
is not emitted under its literal `.LNK` name as the claim states. -/
theorem readdir_drops_entry_on_target_read_fault :
    decodeMarker (encodeMarker ['/', 'x']) = some ['/', 'x'] ∧
    readdirEmit
      [⟨['a', '.', 'L', 'N', 'K'], .targetFault (encodeMarker ['/', 'x'])⟩,
       ⟨['b'], .ok ['h', 'i']⟩] = [['b']] :=
  ⟨rfl, rfl⟩

/-- C3 amended: when reading a single `.LNK` candidate fails, the listing as
a whole still proceeds (the surrounding entries are emitted unchanged), and
the faulty entry is passed through under its literal `.LNK` name if the open
fails or the 7-byte signature read is short; but if the signature was read
and matched and the subsequent target-bytes read fails short, the entry is
dropped from the listing entirely. -/
theorem readdir_single_entry_fault_handling (pre post : List DirEntry)
    (name c : List Char) (hs : hasLnkSuffix name)
    (hmagic : c.take 7 = NLINKFS_MAGIC) (hlen : 8 < c.length) :
    readdirEmit (pre ++ ⟨name, .openFail⟩ :: post) =
      readdirEmit pre ++ name :: readdirEmit post ∧
    readdirEmit (pre ++ ⟨name, .magicFault c⟩ :: post) =
      readdirEmit pre ++ name :: readdirEmit post ∧
    readdirEmit (pre ++ ⟨name, .targetFault c⟩ :: post) =
      readdirEmit pre ++ readdirEmit post := by
  have hof : emitOf ⟨name, .openFail⟩ = [name] := by
    simp [emitOf, classify, hs]
  have hmf : emitOf ⟨name, .magicFault c⟩ = [name] := by
    simp [emitOf, classify, hs]
  have htf : emitOf ⟨name, .targetFault c⟩ = [] := by
    have h1 : ¬ c.length < 7 := by omega
    have h2 : ¬ c.take 7 ≠ NLINKFS_MAGIC := by simp [hmagic]
    have h3 : ¬ c.length = 7 := by omega
    simp only [emitOf, classify, if_pos hs, if_neg h1, if_neg h2, if_neg h3,
      if_pos hlen]
  refine ⟨?_, ?_, ?_⟩ <;>
    simp [readdirEmit, hof, hmf, htf]

/-- Witness for `readdir_single_entry_fault_handling`: the candidate "a.LNK"
with marker content `encode("/x")`, between the entries "u" and "v". -/
theorem readdir_single_entry_fault_handling_witness :
    readdirEmit ([⟨['u'], .ok ['q']⟩] ++
        ⟨['a', '.', 'L', 'N', 'K'], .openFail⟩ :: [⟨['v'], .ok ['q']⟩]) =
      readdirEmit [⟨['u'], .ok ['q']⟩] ++ ['a', '.', 'L', 'N', 'K'] ::
        readdirEmit [⟨['v'], .ok ['q']⟩] ∧
    readdirEmit ([⟨['u'], .ok ['q']⟩] ++
        ⟨['a', '.', 'L', 'N', 'K'], .magicFault (encodeMarker ['/', 'x'])⟩ ::
          [⟨['v'], .ok ['q']⟩]) =
      readdirEmit [⟨['u'], .ok ['q']⟩] ++ ['a', '.', 'L', 'N', 'K'] ::
        readdirEmit [⟨['v'], .ok ['q']⟩] ∧
    readdirEmit ([⟨['u'], .ok ['q']⟩] ++
        ⟨['a', '.', 'L', 'N', 'K'], .targetFault (encodeMarker ['/', 'x'])⟩ ::
          [⟨['v'], .ok ['q']⟩]) =
      readdirEmit [⟨['u'], .ok ['q']⟩] ++ readdirEmit [⟨['v'], .ok ['q']⟩] :=
  readdir_single_entry_fault_handling [⟨['u'], .ok ['q']⟩] [⟨['v'], .ok ['q']⟩]
    ['a', '.', 'L', 'N', 'K'] (encodeMarker ['/', 'x'])
    (by decide) (by decide) (by decide)

theorem classify_stripped_suffix (e : DirEntry) (t : List Char)
    (h : classify e = .stripped t) : hasLnkSuffix e.name := by
  by_cases hs : hasLnkSuffix e.name
  · exact hs
  · rw [classify, if_neg hs] at h
    cases h

theorem count_emitOf_zero (e : DirEntry) (x : List Char)
    (h1 : e.name ≠ x) (h2 : e.name ≠ x ++ lnkSuffix) :
    List.count x (emitOf e) = 0 := by
  unfold emitOf
  cases hc : classify e with
  | literal => simp [List.count_singleton, h1]
  | dropped => simp
  | stripped t =>
    have hs := classify_stripped_suffix e t hc
    have hne : stripLnk e.name ≠ x := by
      intro hx
      exact h2 (by rw [eq_stripLnk_append e.name hs, hx])
    simp [List.count_singleton, hne]

theorem count_readdirEmit_zero (base : List Char) (l : List DirEntry)
    (hl : ∀ e ∈ l, e.name ≠ base ∧ e.name ≠ base ++ lnkSuffix ∧
      e.name ≠ (base ++ lnkSuffix) ++ lnkSuffix) :
    List.count base (readdirEmit l) = 0 ∧
    List.count (base ++ lnkSuffix) (readdirEmit l) = 0 := by
  induction l with
  | nil => simp [readdirEmit]
  | cons e rest ih =>
    obtain ⟨h1, h2, h3⟩ := hl e (List.mem_cons_self e rest)
    have hr := ih (fun e' he' => hl e' (List.mem_cons_of_mem e he'))
    have hsplit : readdirEmit (e :: rest) = emitOf e ++ readdirEmit rest := by
      simp [readdirEmit]
    rw [hsplit, List.count_append, List.count_append,
      count_emitOf_zero e base h1 h2,
      count_emitOf_zero e (base ++ lnkSuffix) h2 h3, hr.1, hr.2]
    exact ⟨rfl, rfl⟩

/-- C7 counterexample: a backing directory holding both a plain file "foo"
and a valid marker "foo.LNK" for the virtual path "foo". The literal
suffixed name is indeed masked, but the stripped name "foo" is emitted twice
— once for the plain file, once for the marker — not exactly once as the
claim states. -/
theorem readdir_emits_stripped_name_twice :
    decodeMarker (encodeMarker ['/', 't']) = some ['/', 't'] ∧
    readdirEmit [⟨['f', 'o', 'o'], .ok ['h', 'i']⟩,
      ⟨['f', 'o', 'o', '.', 'L', 'N', 'K'], .ok (encodeMarker ['/', 't'])⟩] =
      [['f', 'o', 'o'], ['f', 'o', 'o']] ∧
    List.count ['f', 'o', 'o']
      (readdirEmit [⟨['f', 'o', 'o'], .ok ['h', 'i']⟩,
        ⟨['f', 'o', 'o', '.', 'L', 'N', 'K'],
          .ok (encodeMarker ['/', 't'])⟩]) = 2 :=
  ⟨rfl, rfl, by decide⟩

/-- C7 amended: for a virtual path `p` whose valid (decodable) marker file is
read without I/O faults during the listing, and whose literal marker name is
not duplicated, shadowed by a plain entry named `p`, or re-creatable by
stripping an entry named `p.LNK.LNK`, the listing never emits the literal
`.LNK`-suffixed name and emits the stripped emulated-link name exactly once;
a plain backing entry carrying the same stripped name (see the
counterexample) makes the stripped name appear an additional time. -/
theorem readdir_masking_invariant (pre post : List DirEntry)
    (base c t : List Char) (hdec : decodeMarker c = some t)
    (hothers : ∀ e ∈ pre ++ post, e.name ≠ base ∧ e.name ≠ base ++ lnkSuffix ∧
      e.name ≠ (base ++ lnkSuffix) ++ lnkSuffix) :
    List.count (base ++ lnkSuffix)
      (readdirEmit (pre ++ ⟨base ++ lnkSuffix, .ok c⟩ :: post)) = 0 ∧
    List.count base
      (readdirEmit (pre ++ ⟨base ++ lnkSuffix, .ok c⟩ :: post)) = 1 := by
  have hmark : emitOf ⟨base ++ lnkSuffix, .ok c⟩ = [base] := by
    unfold emitOf
    rw [classify_ok_of_decode (base ++ lnkSuffix) c t
      (hasLnkSuffix_append base) hdec]
    rw [stripLnk_append]
  have hpre := count_readdirEmit_zero base pre
    (fun e he => hothers e (List.mem_append_left post he))
  have hpost := count_readdirEmit_zero base post
    (fun e he => hothers e (List.mem_append_right pre he))
  have hsplit : readdirEmit (pre ++ ⟨base ++ lnkSuffix, .ok c⟩ :: post) =
      readdirEmit pre ++ emitOf ⟨base ++ lnkSuffix, .ok c⟩ ++
        readdirEmit post := by
    simp [readdirEmit]
  rw [hsplit, hmark]
  constructor
  · rw [List.count_append, List.count_append, hpre.2, hpost.2]
    have : List.count (base ++ lnkSuffix) [base] = 0 := by
      have hne : base ≠ base ++ lnkSuffix := ne_append_lnkSuffix base
      simp [List.count_singleton, hne]
    rw [this]
  · rw [List.count_append, List.count_append, hpre.1, hpost.1]
    simp [List.count_singleton]

/-- Witness for `readdir_masking_invariant`: directory containing "hello",
the marker "my.LNK" with content `encode("/t")`, and "work". -/
theorem readdir_masking_invariant_witness :
    List.count (['m', 'y'] ++ lnkSuffix)
      (readdirEmit ([⟨['h', 'e', 'l', 'l', 'o'], .ok ['h', 'i']⟩] ++
        ⟨['m', 'y'] ++ lnkSuffix, .ok (encodeMarker ['/', 't'])⟩ ::
          [⟨['w', 'o', 'r', 'k'], .ok ['q']⟩])) = 0 ∧
    List.count ['m', 'y']
      (readdirEmit ([⟨['h', 'e', 'l', 'l', 'o'], .ok ['h', 'i']⟩] ++
        ⟨['m', 'y'] ++ lnkSuffix, .ok (encodeMarker ['/', 't'])⟩ ::
          [⟨['w', 'o', 'r', 'k'], .ok ['q']⟩])) = 1 :=
  readdir_masking_invariant [⟨['h', 'e', 'l', 'l', 'o'], .ok ['h', 'i']⟩]
    [⟨['w', 'o', 'r', 'k'], .ok ['q']⟩] ['m', 'y'] (encodeMarker ['/', 't'])
    ['/', 't'] rfl (by decide)

theorem findLink_insertLink_isSome (reg : Registry) (e : NlkSlink)
    (q : List Char) (h : (findLink reg q).isSome = true) :
    (findLink (insertLink reg e) q).isSome = true := by
  unfold insertLink
  by_cases hc : (findLink reg e.lfilename).isSome = true
  · rw [if_pos hc]
    exact h
  · rw [if_neg hc, findLink_append]
    obtain ⟨x, hx⟩ := Option.isSome_iff_exists.mp h
    rw [hx]
    rfl

theorem findLink_insertLink_self (reg : Registry) (e : NlkSlink) :
    (findLink (insertLink reg e) e.lfilename).isSome = true := by
  unfold insertLink
  by_cases hc : (findLink reg e.lfilename).isSome = true
  · rw [if_pos hc]
    exact hc
  · rw [if_neg hc, findLink_append]
    have hn : findLink reg e.lfilename = none := by
      cases hx : findLink reg e.lfilename
      · rfl
      · rw [hx] at hc; simp at hc
    rw [hn]
    simp [findLink]

theorem registerOf_isSome (dir : List Char) (reg : Registry) (e : DirEntry)
    (q : List Char) (h : (findLink reg q).isSome = true) :
    (findLink (registerOf dir reg e) q).isSome = true := by
  unfold registerOf
  cases hc : classify e
  · exact h
  · exact findLink_insertLink_isSome reg _ q h
  · exact h

theorem readdirRegister_isSome (dir : List Char) (entries : List DirEntry) :
    ∀ (reg : Registry) (q : List Char),
      (findLink reg q).isSome = true →
      (findLink (readdirRegister dir reg entries) q).isSome = true := by
  induction entries with
  | nil => intro reg q h; exact h
  | cons e rest ih =>
    intro reg q h
    exact ih (registerOf dir reg e) q (registerOf_isSome dir reg e q h)

theorem readdirRegister_registers (dir name c t : List Char)
    (hdec : decodeMarker c = some t) :
    ∀ (entries : List DirEntry) (reg : Registry),
      (⟨name ++ lnkSuffix, .ok c⟩ : DirEntry) ∈ entries →
      (findLink (readdirRegister dir reg entries)
        (joinPath dir name)).isSome = true := by
  intro entries
  induction entries with
  | nil => intro reg h; cases h
  | cons e rest ih =>
    intro reg hmem
    rcases List.mem_cons.mp hmem with heq | hm
    · have hstep : (findLink (registerOf dir reg e)
          (joinPath dir name)).isSome = true := by
        rw [← heq]
        unfold registerOf
        rw [classify_ok_of_decode (name ++ lnkSuffix) c t
          (hasLnkSuffix_append name) hdec]
        show (findLink (insertLink reg
          ⟨joinPath dir (stripLnk (name ++ lnkSuffix)), t⟩)
          (joinPath dir name)).isSome = true
        rw [stripLnk_append]
        exact findLink_insertLink_self reg ⟨joinPath dir name, t⟩
      exact readdirRegister_isSome dir rest (registerOf dir reg e)
        (joinPath dir name) hstep
    · exact ih (registerOf dir reg e) hm

/-- C10: renaming a registered emulated link `p` to `newp` moves exactly the
marker file (`marker_path(p)` to `marker_path(newp)`, all other backing files
unchanged) and leaves the in-memory links list untouched, so the old entry
still carries `p`; as long as `newp` is not in the list, read-link-target on
`newp` answers "not a link" and get-attributes falls into the plain-path
branch (an `ENOENT` error here, since no plain file exists at `newp`) — until
the parent directory is listed again, which registers `newp`. -/
theorem rename_moves_marker_only_registry_stale (reg : Registry)
    (store : Store) (srcdir p newp dir nm c t : List Char) (e : NlkSlink)
    (f : BackFile) (entries : List DirEntry) (size : Nat)
    (hreg : findLink reg p = some e)
    (hnew : findLink reg newp = none)
    (hmark : lookupStore store (markerPath srcdir p) = some f)
    (hne : p ≠ newp)
    (hnp : newp ≠ p ++ lnkSuffix)
    (hplain : lookupStore store (realPath srcdir newp) = none)
    (hjoin : newp = joinPath dir nm)
    (hmem : (⟨nm ++ lnkSuffix, .ok c⟩ : DirEntry) ∈ entries)
    (hdec : decodeMarker c = some t) :
    (nlinkfs_rename reg store srcdir p newp).1 = reg ∧
    findLink (nlinkfs_rename reg store srcdir p newp).1 p = some e ∧
    lookupStore (nlinkfs_rename reg store srcdir p newp).2.1
      (markerPath srcdir newp) = some f ∧
    lookupStore (nlinkfs_rename reg store srcdir p newp).2.1
      (markerPath srcdir p) = none ∧
    (∀ q, q ≠ markerPath srcdir p → q ≠ markerPath srcdir newp →
      lookupStore (nlinkfs_rename reg store srcdir p newp).2.1 q =
        lookupStore store q) ∧
    nlinkfs_readlink reg newp size = ([], -22) ∧
    nlinkfs_getattr reg (nlinkfs_rename reg store srcdir p newp).2.1
      srcdir newp = .error (-2) ∧
    (findLink (readdirRegister dir reg entries) newp).isSome = true := by
  have hres : nlinkfs_rename reg store srcdir p newp =
      (reg, storeSet (storeErase store (markerPath srcdir p))
        (markerPath srcdir newp) f, 0) := by
    simp [nlinkfs_rename, hreg, renameStore, hmark]
  have hr1 : realPath srcdir newp ≠ markerPath srcdir p := by
    intro h
    unfold realPath markerPath at h
    rw [List.append_assoc] at h
    exact hnp (List.append_cancel_left h)
  have hr2 : realPath srcdir newp ≠ markerPath srcdir newp :=
    realPath_ne_markerPath srcdir newp
  refine ⟨by rw [hres], by rw [hres]; exact hreg, ?_, ?_, ?_, ?_, ?_, ?_⟩
  · rw [hres]
    show lookupStore (storeSet (storeErase store (markerPath srcdir p))
      (markerPath srcdir newp) f) (markerPath srcdir newp) = some f
    rw [lookupStore_set, if_pos rfl]
  · rw [hres]
    show lookupStore (storeSet (storeErase store (markerPath srcdir p))
      (markerPath srcdir newp) f) (markerPath srcdir p) = none
    rw [lookupStore_set, if_neg (markerPath_inj srcdir p newp hne),
      lookupStore_erase, if_pos rfl]
  · intro q hq1 hq2
    rw [hres]
    show lookupStore (storeSet (storeErase store (markerPath srcdir p))
      (markerPath srcdir newp) f) q = lookupStore store q
    rw [lookupStore_set, if_neg hq2, lookupStore_erase, if_neg hq1]
  · simp [nlinkfs_readlink, hnew]
  · rw [hres]
    have hlk : lookupStore (storeSet (storeErase store (markerPath srcdir p))
        (markerPath srcdir newp) f) (realPath srcdir newp) = none := by
      rw [lookupStore_set, if_neg hr2, lookupStore_erase, if_neg hr1, hplain]
    simp [nlinkfs_getattr, hnew, lstatStore, hlk]
  · rw [hjoin]
    exact readdirRegister_registers dir nm c t hdec entries reg hmem

/-- Witness for `rename_moves_marker_only_registry_stale`: link "/a" with
target "/t" renamed to "/b"; the parent listing of "/" contains "b.LNK". -/
theorem rename_moves_marker_only_registry_stale_witness :
    (nlinkfs_rename [⟨['/', 'a'], ['/', 't']⟩]
      [(markerPath ['s'] ['/', 'a'], ⟨encodeMarker ['/', 't'], 0o100644, 0, 0, 0⟩)]
      ['s'] ['/', 'a'] ['/', 'b']).1 = [⟨['/', 'a'], ['/', 't']⟩] ∧
    findLink (nlinkfs_rename [⟨['/', 'a'], ['/', 't']⟩]
      [(markerPath ['s'] ['/', 'a'], ⟨encodeMarker ['/', 't'], 0o100644, 0, 0, 0⟩)]
      ['s'] ['/', 'a'] ['/', 'b']).1 ['/', 'a'] = some ⟨['/', 'a'], ['/', 't']⟩ ∧
    lookupStore (nlinkfs_rename [⟨['/', 'a'], ['/', 't']⟩]
      [(markerPath ['s'] ['/', 'a'], ⟨encodeMarker ['/', 't'], 0o100644, 0, 0, 0⟩)]
      ['s'] ['/', 'a'] ['/', 'b']).2.1 (markerPath ['s'] ['/', 'b']) =
      some ⟨encodeMarker ['/', 't'], 0o100644, 0, 0, 0⟩ ∧
    lookupStore (nlinkfs_rename [⟨['/', 'a'], ['/', 't']⟩]
      [(markerPath ['s'] ['/', 'a'], ⟨encodeMarker ['/', 't'], 0o100644, 0, 0, 0⟩)]
      ['s'] ['/', 'a'] ['/', 'b']).2.1 (markerPath ['s'] ['/', 'a']) = none ∧
    lookupStore (nlinkfs_rename [⟨['/', 'a'], ['/', 't']⟩]
      [(markerPath ['s'] ['/', 'a'], ⟨encodeMarker ['/', 't'], 0o100644, 0, 0, 0⟩)]
      ['s'] ['/', 'a'] ['/', 'b']).2.1 (['s', '/', 't']) =
      lookupStore
        [(markerPath ['s'] ['/', 'a'], ⟨encodeMarker ['/', 't'], 0o100644, 0, 0, 0⟩)]
        (['s', '/', 't']) ∧
    nlinkfs_readlink [⟨['/', 'a'], ['/', 't']⟩] ['/', 'b'] 8 = ([], -22) ∧
    nlinkfs_getattr [⟨['/', 'a'], ['/', 't']⟩]
      (nlinkfs_rename [⟨['/', 'a'], ['/', 't']⟩]
        [(markerPath ['s'] ['/', 'a'], ⟨encodeMarker ['/', 't'], 0o100644, 0, 0, 0⟩)]
        ['s'] ['/', 'a'] ['/', 'b']).2.1 ['s'] ['/', 'b'] = .error (-2) ∧
    (findLink (readdirRegister ['/'] [⟨['/', 'a'], ['/', 't']⟩]
      [⟨['b'] ++ lnkSuffix, .ok (encodeMarker ['/', 't'])⟩])
      ['/', 'b']).isSome = true := by
  have h := rename_moves_marker_only_registry_stale
    [⟨['/', 'a'], ['/', 't']⟩]
    [(markerPath ['s'] ['/', 'a'], ⟨encodeMarker ['/', 't'], 0o100644, 0, 0, 0⟩)]
    ['s'] ['/', 'a'] ['/', 'b'] ['/'] ['b'] (encodeMarker ['/', 't'])
    ['/', 't'] ⟨['/', 'a'], ['/', 't']⟩
    ⟨encodeMarker ['/', 't'], 0o100644, 0, 0, 0⟩
    [⟨['b'] ++ lnkSuffix, .ok (encodeMarker ['/', 't'])⟩] 8
    rfl rfl rfl (by decide) (by decide) rfl (by decide)
    (List.mem_singleton.mpr rfl) rfl
  exact ⟨h.1, h.2.1, h.2.2.1, h.2.2.2.1,
    h.2.2.2.2.1 (['s', '/', 't']) (by decide) (by decide),
    h.2.2.2.2.2.1, h.2.2.2.2.2.2.1, h.2.2.2.2.2.2.2⟩
